import Mathlib

/-!
Shallow embedding of the contact-manager core (`src/main.py`): the
`Field`/`Phone`/`Birthday` validated values, `Record`, and `AddressBook`
operations, together with theorems checking the specification's claims.

Python strings are modelled as lists of characters (`Str`); the model is
faithful for ASCII data (Python's `str.lower` and `str.isdigit` have wider
Unicode behaviour that no claim depends on).  Python `datetime` values are
modelled as a calendar date plus a seconds-within-day count.  Exceptions are
modelled with explicit error results: each operation that can raise returns
its new state together with an optional error, or an `Except` value.
-/

/-- Python strings, modelled as lists of characters. -/
abbrev Str := List Char

/-- ASCII digit test: models Python `str.isdigit` per character (ASCII range). -/
def isDig (c : Char) : Bool := decide (48 ≤ c.toNat ∧ c.toNat ≤ 57)

/-- Numeric value of an ASCII digit character. -/
def digitVal (c : Char) : Nat := c.toNat - 48

/-- The ASCII digit character for a value 0-9. -/
def digitChar10 : Nat → Char
  | 0 => '0' | 1 => '1' | 2 => '2' | 3 => '3' | 4 => '4'
  | 5 => '5' | 6 => '6' | 7 => '7' | 8 => '8' | 9 => '9'
  | _ => '?'

/-- Decimal value of a digit string (most significant first). -/
def natOfDigits (l : Str) : Nat := l.foldl (fun a c => a * 10 + digitVal c) 0

/-- Python `str.isdigit`: true iff nonempty and all digits (ASCII model). -/
def pyIsDigit (s : Str) : Bool := !s.isEmpty && s.all isDig

/-- Lower-casing of one character, as Python `str.lower` acts on ASCII. -/
def lowerChar (c : Char) : Char :=
  if 65 ≤ c.toNat ∧ c.toNat ≤ 90 then Char.ofNat (c.toNat + 32) else c

/-- Python `str.lower` (ASCII model). -/
def pyLower (s : Str) : Str := s.map lowerChar

/-- Does `p` start the list `s`?  Helper for substring containment. -/
def startsWithL : Str → Str → Bool
  | [], _ => true
  | _ :: _, [] => false
  | a :: as, b :: bs => a == b && startsWithL as bs

/-- Python's `q in s` substring test. -/
def occursIn (q : Str) : Str → Bool
  | [] => startsWithL q []
  | c :: rest => startsWithL q (c :: rest) || occursIn q rest

/-- Python `', '.join`. -/
def joinComma : List Str → Str
  | [] => []
  | [s] => s
  | s :: rest => s ++ (", ".data) ++ joinComma rest

/-- A Python value that may be assigned to a `Phone` field: `None`, a string,
or any other (non-string, non-`None`) object. -/
inductive PyVal where
  | vnone
  | vstr (s : Str)
  | vother
  deriving DecidableEq, Repr

/-- Python `str(value)` for a phone field's stored value (`str(None)` is
`"None"`; the `vother` case is unreachable for stored phones since
validation rejects it). -/
def pyStr : PyVal → Str
  | PyVal.vnone => "None".data
  | PyVal.vstr s => s
  | PyVal.vother => "<object>".data

/-- The error kinds the core raises (each constructor corresponds to one
`raise` site in `src/main.py`; all are `ValueError` in Python, classified
here as the spec's `ValidationError`/`NotFoundError` taxonomy). -/
inductive Err where
  /-- `ValueError("Invalid phone number format")` -/
  | invalidPhone
  /-- `ValueError("Invalid birthday format. Please use YYYY-MM-DD")` -/
  | invalidBirthday
  /-- `ValueError("Phone number does not exist in the record")` -/
  | phoneNotFound
  /-- `ValueError(f"Contact ... not found")` -/
  | contactNotFound
  /-- `ValueError` raised by the `datetime` constructor (e.g. Feb 29 in a
  non-leap year) inside `days_to_birthday`. -/
  | dateRange
  deriving DecidableEq, Repr

/-- `Phone.validate_phone`: `None` passes; otherwise the value must be a
string of length 10 whose characters are all digits. -/
def validate_phone (v : PyVal) : Bool :=
  match v with
  | PyVal.vnone => true
  | PyVal.vstr s => decide (s.length = 10) && pyIsDigit s
  | PyVal.vother => false

/-- The `Phone.value` setter: validates, then assigns; on failure the
exception propagates and the previous value is kept. -/
def phoneSet (cur v : PyVal) : PyVal × Option Err :=
  if validate_phone v then (v, Option.none) else (cur, some Err.invalidPhone)

/-- `Phone(value)` construction (`Field.__init__` routes through the setter;
a failed construction yields no object). -/
def phoneNew (v : PyVal) : Except Err PyVal :=
  if validate_phone v then Except.ok v else Except.error Err.invalidPhone

/-- A calendar date as Python's `datetime` holds one (year, month, day). -/
structure Date where
  year : Nat
  month : Nat
  day : Nat
  deriving DecidableEq, Repr

/-- Gregorian leap-year test (as Python's `calendar`/`datetime`). -/
def isLeap (y : Nat) : Bool := y % 4 == 0 && (y % 100 != 0 || y % 400 == 0)

/-- Days in a month of a given year. -/
def daysInMonth (y m : Nat) : Nat :=
  if m = 2 then (if isLeap y then 29 else 28)
  else if m = 4 ∨ m = 6 ∨ m = 9 ∨ m = 11 then 30 else 31

/-- The validity check Python's `datetime(year, month, day)` constructor
performs (`MINYEAR = 1`, `MAXYEAR = 9999`). -/
def dateOK (d : Date) : Bool :=
  decide (1 ≤ d.year ∧ d.year ≤ 9999 ∧ 1 ≤ d.month ∧ d.month ≤ 12 ∧
          1 ≤ d.day ∧ d.day ≤ daysInMonth d.year d.month)

/-- Day number of a date in the proleptic Gregorian calendar (models the
difference structure of Python `datetime.toordinal`; only differences of
values are used). -/
def rataDie (d : Date) : Int :=
  let y : Int := if d.month ≤ 2 then (d.year : Int) - 1 else (d.year : Int)
  let era : Int := Int.fdiv y 400
  let yoe : Int := y - era * 400
  let mp : Int := Int.emod ((d.month : Int) + 9) 12
  let doy : Int := Int.fdiv (153 * mp + 2) 5 + (d.day : Int) - 1
  let doe : Int := yoe * 365 + Int.fdiv yoe 4 - Int.fdiv yoe 100 + doy
  era * 146097 + doe

/-- Date-field lexicographic strict order (how Python compares the date
parts of two `datetime`s). -/
def dateLtB (a b : Date) : Bool :=
  decide (a.year < b.year ∨ (a.year = b.year ∧
    (a.month < b.month ∨ (a.month = b.month ∧ a.day < b.day))))

/-- `datetime(d, secs) > datetime(b, midnight)`: the comparison
`today > next_birthday` in `days_to_birthday`, where `today` carries a
time of day and `next_birthday` is constructed at midnight. -/
def dtAfterMidnight (d : Date) (secs : Nat) (b : Date) : Bool :=
  dateLtB b d || (b == d && decide (0 < secs))

/-- `datetime(y, m, d)` construction: validates the date or raises. -/
def mkDatetime (y m d : Nat) : Except Err Date :=
  if dateOK ⟨y, m, d⟩ then Except.ok ⟨y, m, d⟩ else Except.error Err.dateRange

/-- `(nb - today).days` where `nb` is at midnight and `today` carries
`secs` seconds of the day: Python `timedelta.days` floors. -/
def diffDays (nb today : Date) (secs : Nat) : Int :=
  Int.fdiv ((rataDie nb - rataDie today) * 86400 - (secs : Int)) 86400

/-- Split a character list on `'-'` (the field structure `strptime` sees
for the format `'%Y-%m-%d'`). -/
def splitDash : Str → List Str
  | [] => [[]]
  | c :: rest =>
    if c = '-' then [] :: splitDash rest
    else
      match splitDash rest with
      | [] => [[c]]
      | f :: r => (c :: f) :: r

/-- `datetime.strptime(s, '%Y-%m-%d')`: the year field is exactly four
digits, month and day fields are one or two digits (CPython's `_strptime`
patterns `\d\d\d\d`, `1[0-2]|0[1-9]|[1-9]`, `3[01]|[12]\d|0[1-9]|[1-9]`),
and the resulting numbers must form a real `datetime` date. -/
def strptime_Ymd (s : Str) : Option Date :=
  match splitDash s with
  | [ys, ms, ds] =>
    if ys.length = 4 ∧ ys.all isDig ∧
       1 ≤ ms.length ∧ ms.length ≤ 2 ∧ ms.all isDig ∧
       1 ≤ ds.length ∧ ds.length ≤ 2 ∧ ds.all isDig then
      let y := natOfDigits ys
      let m := natOfDigits ms
      let d := natOfDigits ds
      if 1 ≤ m ∧ m ≤ 12 ∧ 1 ≤ d ∧ d ≤ 31 ∧ dateOK ⟨y, m, d⟩ then
        some ⟨y, m, d⟩
      else Option.none
    else Option.none
  | _ => Option.none

/-- Two-digit zero-padded rendering (strftime `%m`, `%d`). -/
def pad2 (n : Nat) : Str := [digitChar10 (n / 10 % 10), digitChar10 (n % 10)]

/-- Four-digit zero-padded rendering (strftime `%Y` for years up to 9999). -/
def pad4 (n : Nat) : Str :=
  [digitChar10 (n / 1000 % 10), digitChar10 (n / 100 % 10),
   digitChar10 (n / 10 % 10), digitChar10 (n % 10)]

/-- `str(Birthday)`, i.e. `strftime('%Y-%m-%d')`. -/
def formatDate (d : Date) : Str :=
  pad4 d.year ++ '-' :: (pad2 d.month ++ '-' :: pad2 d.day)

/-- `Birthday(value)` construction from a (truthy) string: validate via
`strptime`, store the parsed date, or raise. -/
def birthdayNew (s : Str) : Except Err Date :=
  match strptime_Ymd s with
  | some d => Except.ok d
  | Option.none => Except.error Err.invalidBirthday

/-- One contact: `Record` (name string, optional parsed birthday, ordered
list of stored phone values). -/
structure RecordE where
  name : Str
  birthday : Option Date
  phones : List PyVal
  deriving DecidableEq, Repr

/-- `Record.__str__`. -/
def recordStr (r : RecordE) : Str :=
  "Contact name: ".data ++ r.name ++ ", phones: ".data ++
    joinComma (r.phones.map pyStr) ++
    (match r.birthday with
     | some b => ", birthday: ".data ++ formatDate b
     | Option.none => [])

/-- `Record.edit_phone`'s loop: walk the phone list, and at the first phone
whose text equals `old` run the `Phone.value` setter with `nv`; if none
matches, raise.  Returns the resulting list and the optional error; on
error the list is the original one (validation precedes assignment). -/
def editPhones (ps : List PyVal) (old : Str) (nv : PyVal) : List PyVal × Option Err :=
  match ps with
  | [] => ([], some Err.phoneNotFound)
  | p :: rest =>
    if pyStr p == old then
      let r := phoneSet p nv
      (r.1 :: rest, r.2)
    else
      let r := editPhones rest old nv
      (p :: r.1, r.2)

/-- `Record.days_to_birthday`, with "now" passed explicitly as a date plus
seconds within the day (Python reads `datetime.now()`). -/
def days_to_birthday (r : RecordE) (today : Date) (secs : Nat) :
    Except Err (Option Int) :=
  match r.birthday with
  | Option.none => Except.ok Option.none
  | some b =>
    match mkDatetime today.year b.month b.day with
    | Except.error e => Except.error e
    | Except.ok nb1 =>
      if dtAfterMidnight today secs nb1 then
        match mkDatetime (today.year + 1) b.month b.day with
        | Except.error e => Except.error e
        | Except.ok nb2 => Except.ok (some (diffDays nb2 today secs))
      else Except.ok (some (diffDays nb1 today secs))

/-- The address book: Python's insertion-ordered `dict` keyed by the exact
record name (the key always equals the record's own name in the source). -/
abbrev Book := List RecordE

/-- `AddressBook.find`: first record whose lower-cased name equals the
lower-cased query. -/
def findRec (book : Book) (name : Str) : Option RecordE :=
  book.find? (fun r => pyLower r.name == pyLower name)

/-- Extend the phone list of the first record whose lower-cased name is
`key` (the in-place `existing_record.phones.extend(...)` of `add_record`). -/
def extendFirst : Book → Str → List PyVal → Book
  | [], _, _ => []
  | x :: rest, key, ps =>
    if pyLower x.name == key then
      { x with phones := x.phones ++ ps } :: rest
    else x :: extendFirst rest key ps

/-- `AddressBook.add_record`: merge phones into an existing record with the
same case-insensitive name, else insert keyed by the exact name (a new dict
key appends in insertion order). -/
def add_record (book : Book) (r : RecordE) : Book :=
  if book.any (fun x => pyLower x.name == pyLower r.name) then
    extendFirst book (pyLower r.name) r.phones
  else
    book ++ [r]

/-- `del self.data[key]`: remove the dict entry with that exact key. -/
def eraseKey : Book → Str → Book
  | [], _ => []
  | x :: rest, k => if x.name == k then rest else x :: eraseKey rest k

/-- `AddressBook.delete`: find the case-insensitive match and delete its
exact key; no-op if absent. -/
def deleteRec (book : Book) (name : Str) : Book :=
  match book.find? (fun r => pyLower r.name == pyLower name) with
  | some r => eraseKey book r.name
  | Option.none => book

/-- `AddressBook.change_phone`: lower the name, walk to the first
case-insensitive match as `find` does (`find` lowers its argument again),
edit that record's phones in place; raise if no contact matches.  Returns
the resulting book and the optional error. -/
def change_phone : Book → Str → Str → PyVal → Book × Option Err
  | [], _, _, _ => ([], some Err.contactNotFound)
  | r :: rest, name, old, nv =>
    if pyLower r.name == pyLower (pyLower name) then
      let e := editPhones r.phones old nv
      ({ r with phones := e.1 } :: rest, e.2)
    else
      let e := change_phone rest name old nv
      (r :: e.1, e.2)

/-- `AddressBook.search`: lower-cased query as substring of the lower-cased
name or of any phone's text; returns display strings in book order. -/
def searchBook (book : Book) (query : Str) : List Str :=
  (book.filter (fun r =>
    occursIn (pyLower query) (pyLower r.name) ||
    r.phones.any (fun p => occursIn (pyLower query) (pyStr p)))).map recordStr

/-- `AddressBook.get_page` with the fixed `page_size = 5`:
`list(self.data.values())[start:end]` with `start = (p-1)*5`,
`end = start+5` (page numbers below 1 would use Python's negative-index
slicing and are outside every claim). -/
def get_page (book : Book) (page_number : Nat) : Book :=
  (book.drop ((page_number - 1) * 5)).take 5

/-- `AddressBook.record_iterator`: yields the display string of every
record in insertion order. -/
def record_iterator (book : Book) : List Str := book.map recordStr

/-- `AddressBook.get_n_records`: each loop iteration calls
`next(self.record_iterator())` on a freshly created iterator, so each
iteration observes that fresh iterator's first element (or `StopIteration`
on an empty book, breaking the loop). -/
def get_n_records (book : Book) (n : Nat) : List Str :=
  match n with
  | 0 => []
  | Nat.succ m =>
    match record_iterator book with
    | [] => []
    | s :: _ => s :: get_n_records book m

/-- One element of the persisted JSON array. -/
structure PRec where
  name : Str
  birthday : Option Str
  phones : Option (List PyVal)
  deriving DecidableEq, Repr

/-- `[Phone(phone) for phone in phones]`: validate left to right, the first
invalid value raises. -/
def phonesFromRaw : List PyVal → Except Err (List PyVal)
  | [] => Except.ok []
  | v :: rest =>
    if validate_phone v then Except.map (fun l => v :: l) (phonesFromRaw rest)
    else Except.error Err.invalidPhone

/-- `Record(name, birthday, phones)` construction: a falsy birthday
(`None` or the empty string) means no birthday, otherwise it is parsed;
then every phone is validated. -/
def mkRecord (name : Str) (birthday : Option Str) (phones : Option (List PyVal)) :
    Except Err RecordE :=
  match (match birthday with
         | Option.none => Except.ok Option.none
         | some [] => Except.ok Option.none
         | some s => Except.map some (birthdayNew s)) with
  | Except.error e => Except.error e
  | Except.ok b =>
    match phonesFromRaw (phones.getD []) with
    | Except.error e => Except.error e
    | Except.ok ps => Except.ok ⟨name, b, ps⟩

/-- Python dict assignment `d[name] = r`: replace in place if the exact key
is present (keeping its position), else append. -/
def dictInsert : Book → RecordE → Book
  | [], r => [r]
  | x :: rest, r => if x.name == r.name then r :: rest else x :: dictInsert rest r

/-- The dict comprehension of `load_from_file`, evaluated left to right;
the first failing `Record(...)` construction raises and nothing is
assigned. -/
def loadGo (book : Book) : List PRec → Except Err Book
  | [] => Except.ok book
  | pr :: rest =>
    match mkRecord pr.name pr.birthday pr.phones with
    | Except.error e => Except.error e
    | Except.ok r => loadGo (dictInsert book r) rest

/-- `AddressBook.load_from_file` on a present file with the given parsed
JSON content: rebuilds the mapping from scratch. -/
def load_from_file (file : List PRec) : Except Err Book := loadGo [] file

/-- The address-book operations claim C4 ranges over. -/
inductive BookOp where
  | add (r : RecordE)
  | del (name : Str)
  | change (name old : Str) (nv : PyVal)
  | load (file : List PRec)
  | save
  deriving Repr

/-- Apply one operation to the book: a raised exception leaves the book as
it was (`change_phone` mutates nothing on failure; a failing load never
assigns `self.data`; `save` does not mutate). -/
def applyOp (book : Book) : BookOp → Book
  | BookOp.add r => add_record book r
  | BookOp.del n => deleteRec book n
  | BookOp.change n o v => (change_phone book n o v).1
  | BookOp.load file =>
    match load_from_file file with
    | Except.ok b => b
    | Except.error _ => book
  | BookOp.save => book

/-- Apply a sequence of operations left to right. -/
def applyOps (book : Book) (ops : List BookOp) : Book := ops.foldl applyOp book

/-- Pairwise-distinct list of strings. -/
def distinctL : List Str → Bool
  | [] => true
  | s :: rest => rest.all (fun t => !(t == s)) && distinctL rest

/-- The lower-cased names of the book's records, in order. -/
def namesCI (book : Book) : List Str := book.map (fun r => pyLower r.name)

/-- The case-insensitive-uniqueness invariant of claim C4. -/
def ciUniq (book : Book) : Bool := distinctL (namesCI book)

/-- The specification's acceptance condition for a phone value: a string of
exactly 10 ASCII digits. -/
def isTenDigitStr (v : PyVal) : Bool :=
  match v with
  | PyVal.vstr s => decide (s.length = 10) && s.all isDig
  | _ => false

/-- The side condition under which one operation preserves the
case-insensitive-uniqueness invariant: the only constraint is on
`load_from_file`, whose file content must carry pairwise case-insensitively
distinct names. -/
def opSafe : BookOp → Bool
  | BookOp.load file => distinctL (file.map (fun pr => pyLower pr.name))
  | _ => true

theorem charEqOfNat {c : Char} {n : Nat} (h : c.toNat = n) : c = Char.ofNat n := by
  rw [← h, Char.ofNat_toNat]

theorem lowerChar_idem (c : Char) : lowerChar (lowerChar c) = lowerChar c := by
  by_cases h : 65 ≤ c.toNat ∧ c.toNat ≤ 90
  · have h26 : c.toNat = 65 ∨ c.toNat = 66 ∨ c.toNat = 67 ∨ c.toNat = 68 ∨
        c.toNat = 69 ∨ c.toNat = 70 ∨ c.toNat = 71 ∨ c.toNat = 72 ∨
        c.toNat = 73 ∨ c.toNat = 74 ∨ c.toNat = 75 ∨ c.toNat = 76 ∨
        c.toNat = 77 ∨ c.toNat = 78 ∨ c.toNat = 79 ∨ c.toNat = 80 ∨
        c.toNat = 81 ∨ c.toNat = 82 ∨ c.toNat = 83 ∨ c.toNat = 84 ∨
        c.toNat = 85 ∨ c.toNat = 86 ∨ c.toNat = 87 ∨ c.toNat = 88 ∨
        c.toNat = 89 ∨ c.toNat = 90 := by omega
    rcases h26 with hn|hn|hn|hn|hn|hn|hn|hn|hn|hn|hn|hn|hn|hn|hn|hn|hn|hn|hn|hn|hn|hn|hn|hn|hn|hn <;>
      rw [charEqOfNat hn] <;> decide
  · unfold lowerChar
    rw [if_neg h, if_neg h]

theorem pyLower_idem (s : Str) : pyLower (pyLower s) = pyLower s := by
  induction s with
  | nil => rfl
  | cons c t ih =>
    simp only [pyLower, List.map_cons, List.map_map] at *
    rw [lowerChar_idem, ih]

theorem occursIn_nil (s : Str) : occursIn [] s = true := by
  induction s <;> simp [occursIn, startsWithL, *]

/-- C1: the specification says `daysToBirthday` ignores the time of day and
returns 0 when today's month/day equals the birthday's.  The code compares
`datetime.now()` (which carries the time of day) against midnight of the
birthday, rolls to next year, and returns 365 here: at noon of 2023-05-10
with birthday 1990-05-10 the result is 365, not 0. -/
theorem C1_days_to_birthday_on_birthday_eval :
    days_to_birthday ⟨"Ann".data, some ⟨1990, 5, 10⟩, []⟩ ⟨2023, 5, 10⟩ 43200 =
      Except.ok (some 365) := by rfl

/-- C2: the specification says `get_n_records` returns the first `n` display
strings.  Each loop iteration of the code calls `next` on a freshly created
iterator, so the book `[Alice, Bob]` yields Alice's display string twice
instead of Alice's then Bob's. -/
theorem C2_get_n_records_repeats_first_eval :
    get_n_records [⟨"Alice".data, Option.none, []⟩, ⟨"Bob".data, Option.none, []⟩] 2 =
      [recordStr ⟨"Alice".data, Option.none, []⟩,
       recordStr ⟨"Alice".data, Option.none, []⟩] ∧
    get_n_records [⟨"Alice".data, Option.none, []⟩, ⟨"Bob".data, Option.none, []⟩] 2 ≠
      [recordStr ⟨"Alice".data, Option.none, []⟩,
       recordStr ⟨"Bob".data, Option.none, []⟩] := by
  exact ⟨by decide, by decide⟩

/-- C3 counterexample: assigning `None` to a populated `Phone` field
succeeds (`validate_phone` lets `None` through) and replaces the stored
value, although `None` is not a string of 10 ASCII digits — refuting the
claimed "succeeds if and only if ... 10 ASCII digits". -/
theorem C3_phone_accepts_none_counterexample :
    (phoneSet (PyVal.vstr "5550001111".data) PyVal.vnone).2 = Option.none ∧
    (phoneSet (PyVal.vstr "5550001111".data) PyVal.vnone).1 = PyVal.vnone ∧
    isTenDigitStr PyVal.vnone = false := by
  exact ⟨by decide, by decide, by decide⟩

/-- C3 amended: assignment to a `Phone` field succeeds iff the value is
`None` or a string of exactly 10 digits; a successful assignment stores
exactly the given value (so a stored string displays identically), and a
failed assignment raises the validation error and keeps the prior value. -/
theorem C3_phone_validation_amended (cur v : PyVal) :
    ((phoneSet cur v).2 = Option.none ↔ (v = PyVal.vnone ∨ isTenDigitStr v = true)) ∧
    ((phoneSet cur v).2 = Option.none → (phoneSet cur v).1 = v) ∧
    ((phoneSet cur v).2 ≠ Option.none →
      (phoneSet cur v).1 = cur ∧ (phoneSet cur v).2 = some Err.invalidPhone) ∧
    (∀ s : Str, v = PyVal.vstr s → (phoneSet cur v).2 = Option.none →
      pyStr (phoneSet cur v).1 = s) := by
  have hval : validate_phone v = true ↔ (v = PyVal.vnone ∨ isTenDigitStr v = true) := by
    cases v with
    | vnone => simp [validate_phone, isTenDigitStr]
    | vother => simp [validate_phone, isTenDigitStr]
    | vstr s =>
      simp only [validate_phone, isTenDigitStr, pyIsDigit, Bool.and_eq_true,
        decide_eq_true_eq, Bool.not_eq_true']
      constructor
      · rintro ⟨h10, _, hall⟩
        exact Or.inr ⟨h10, hall⟩
      · rintro (h | ⟨h10, hall⟩)
        · cases h
        · refine ⟨h10, ?_, hall⟩
          cases s with
          | nil => simp at h10
          | cons a t => rfl
  by_cases hv : validate_phone v = true
  · refine ⟨?_, ?_, ?_, ?_⟩
    · simp [phoneSet, hv, hval.mp hv]
    · intro _; simp [phoneSet, hv]
    · intro hne; exact absurd (by simp [phoneSet, hv]) hne
    · intro s hs _
      subst hs
      simp [phoneSet, hv, pyStr]
  · have hv' : validate_phone v = false := by
      cases hq : validate_phone v
      · rfl
      · exact absurd hq hv
    refine ⟨?_, ?_, ?_, ?_⟩
    · simp only [phoneSet, hv', if_false]
      constructor
      · intro h; cases h
      · intro h; exact absurd (hval.mpr h) hv
    · intro h; simp [phoneSet, hv'] at h
    · intro _; simp [phoneSet, hv']
    · intro s hs h; simp [phoneSet, hv'] at h

theorem C3_phone_validation_amended_witness :
    pyStr (phoneSet PyVal.vnone (PyVal.vstr "0123456789".data)).1 = "0123456789".data :=
  (C3_phone_validation_amended PyVal.vnone (PyVal.vstr "0123456789".data)).2.2.2
    ("0123456789".data) rfl (by decide)

/-- C5: adding two records with equal case-insensitive names merges them
into one record, keyed and named by the first record's exact-case name,
with the phone lists concatenated in order (duplicates kept) and the first
record's birthday retained (the second's is ignored). -/
theorem C5_add_record_merge (r1 r2 : RecordE)
    (h : pyLower r1.name = pyLower r2.name) :
    add_record (add_record [] r1) r2 =
      [{ name := r1.name, birthday := r1.birthday,
         phones := r1.phones ++ r2.phones }] := by
  have h1 : add_record [] r1 = [r1] := by simp [add_record]
  rw [h1]
  unfold add_record
  simp [h, extendFirst]

theorem C5_add_record_merge_witness :
    add_record (add_record []
        ⟨"Alice".data, Option.none, [PyVal.vstr "1234567890".data]⟩)
        ⟨"ALICE".data, some ⟨1990, 5, 10⟩, [PyVal.vstr "0987654321".data]⟩ =
      [⟨"Alice".data, Option.none,
        [PyVal.vstr "1234567890".data, PyVal.vstr "0987654321".data]⟩] :=
  C5_add_record_merge
    ⟨"Alice".data, Option.none, [PyVal.vstr "1234567890".data]⟩
    ⟨"ALICE".data, some ⟨1990, 5, 10⟩, [PyVal.vstr "0987654321".data]⟩
    (by decide)

/-- C10: searching with the empty query returns every record's display
string in insertion order (the empty string is a substring of every
lower-cased name, so the filter keeps everything; the operation is total). -/
theorem C10_search_empty_returns_all (book : Book) :
    searchBook book [] = book.map recordStr := by
  unfold searchBook
  have hf : book.filter (fun r =>
      occursIn (pyLower []) (pyLower r.name) ||
      r.phones.any (fun p => occursIn (pyLower []) (pyStr p))) = book :=
    List.filter_eq_self.mpr (fun r _ => by simp [pyLower, occursIn_nil])
  rw [hf]

/-- C8: for page numbers `p ≥ 1`, `get_page` returns exactly the records in
positions `[(p-1)*5, min (p*5) N)` of the insertion-ordered book: element
`i` of the page is element `(p-1)*5 + i` of the book, the page length is
`min (p*5) N - (p-1)*5`, and any page past the end is empty (the function
is total, so no out-of-range page number raises). -/
theorem C8_get_page_slice (book : Book) (p : Nat) (hp : 1 ≤ p) :
    (∀ i, (h : i < (get_page book p).length) →
      ∃ hj : (p - 1) * 5 + i < book.length,
        (get_page book p).get ⟨i, h⟩ = book.get ⟨(p - 1) * 5 + i, hj⟩) ∧
    (get_page book p).length = min (p * 5) book.length - (p - 1) * 5 ∧
    (book.length ≤ (p - 1) * 5 → get_page book p = []) := by
  refine ⟨?_, ?_, ?_⟩
  · intro i h
    have hlen : (get_page book p).length = min 5 (book.length - (p - 1) * 5) := by
      simp [get_page]
    have hj : (p - 1) * 5 + i < book.length := by
      rw [hlen] at h
      omega
    refine ⟨hj, ?_⟩
    rw [List.get_eq_getElem, List.get_eq_getElem]
    simp only [get_page]
    rw [List.getElem_take, List.getElem_drop]
  · have h5 : 5 * p - 5 = (p - 1) * 5 := by omega
    simp only [get_page, List.length_take, List.length_drop]
    omega
  · intro hle
    simp only [get_page]
    rw [List.drop_eq_nil_of_le hle]
    rfl

theorem C8_get_page_slice_witness :
    (get_page [⟨"A".data, Option.none, []⟩, ⟨"B".data, Option.none, []⟩,
               ⟨"C".data, Option.none, []⟩, ⟨"D".data, Option.none, []⟩,
               ⟨"E".data, Option.none, []⟩, ⟨"F".data, Option.none, []⟩,
               ⟨"G".data, Option.none, []⟩] 2).length =
      min (2 * 5) 7 - (2 - 1) * 5 :=
  (C8_get_page_slice [⟨"A".data, Option.none, []⟩, ⟨"B".data, Option.none, []⟩,
      ⟨"C".data, Option.none, []⟩, ⟨"D".data, Option.none, []⟩,
      ⟨"E".data, Option.none, []⟩, ⟨"F".data, Option.none, []⟩,
      ⟨"G".data, Option.none, []⟩] 2 (by decide)).2.1

theorem editPhones_fail_keeps (ps : List PyVal) (old : Str) (nv : PyVal) (e : Err)
    (h : (editPhones ps old nv).2 = some e) : (editPhones ps old nv).1 = ps := by
  induction ps with
  | nil => rfl
  | cons p rest ih =>
    cases hm : (pyStr p == old) with
    | true =>
      cases hv : validate_phone nv with
      | true => simp [editPhones, hm, phoneSet, hv] at h
      | false => simp [editPhones, hm, phoneSet, hv]
    | false =>
      simp only [editPhones, hm, Bool.false_eq_true, if_false] at h ⊢
      rw [ih h]

theorem editPhones_not_found (ps : List PyVal) (old : Str) (nv : PyVal)
    (h : ∀ p ∈ ps, pyStr p ≠ old) :
    editPhones ps old nv = (ps, some Err.phoneNotFound) := by
  induction ps with
  | nil => rfl
  | cons p rest ih =>
    have hm : (pyStr p == old) = false := by
      simpa using h p (List.mem_cons_self p rest)
    simp only [editPhones, hm, Bool.false_eq_true, if_false]
    rw [ih (fun q hq => h q (List.mem_cons_of_mem p hq))]

theorem change_phone_not_found (book : Book) (name old : Str) (nv : PyVal)
    (h : ∀ r ∈ book, pyLower r.name ≠ pyLower name) :
    change_phone book name old nv = (book, some Err.contactNotFound) := by
  induction book with
  | nil => rfl
  | cons r rest ih =>
    have hm : (pyLower r.name == pyLower (pyLower name)) = false := by
      rw [pyLower_idem]
      simpa using h r (List.mem_cons_self r rest)
    simp only [change_phone, hm, Bool.false_eq_true, if_false]
    rw [ih (fun q hq => h q (List.mem_cons_of_mem r hq))]

theorem change_phone_delegates (book : Book) (name old : Str) (nv : PyVal)
    (r : RecordE) (h : findRec book name = some r) :
    (change_phone book name old nv).2 = (editPhones r.phones old nv).2 := by
  induction book with
  | nil => simp [findRec] at h
  | cons x rest ih =>
    cases hm : (pyLower x.name == pyLower name) with
    | true =>
      have hr : x = r := by
        simp only [findRec, List.find?_cons, hm] at h
        exact Option.some.inj h
      have hm2 : (pyLower x.name == pyLower (pyLower name)) = true := by
        rw [pyLower_idem]; exact hm
      subst hr
      simp [change_phone, hm2]
    | false =>
      have hm2 : (pyLower x.name == pyLower (pyLower name)) = false := by
        rw [pyLower_idem]; exact hm
      have h' : findRec rest name = some r := by
        simp only [findRec, List.find?_cons, hm] at h
        exact h
      simp only [change_phone, hm2, Bool.false_eq_true, if_false]
      exact ih h'

theorem change_phone_fail_keeps (book : Book) (name old : Str) (nv : PyVal) (e : Err)
    (h : (change_phone book name old nv).2 = some e) :
    (change_phone book name old nv).1 = book := by
  induction book with
  | nil => rfl
  | cons r rest ih =>
    cases hm : (pyLower r.name == pyLower (pyLower name)) with
    | true =>
      simp only [change_phone, hm, if_true] at h ⊢
      rw [editPhones_fail_keeps _ _ _ _ h]
    | false =>
      simp only [change_phone, hm, Bool.false_eq_true, if_false] at h ⊢
      rw [ih h]

/-- C9: `change_phone` reports the contact-not-found error when no record's
name matches case-insensitively, and otherwise its error outcome is exactly
that of `edit_phone` on the found record (propagated unchanged);
`edit_phone` reports the phone-not-found error when no stored phone's text
equals `old`; and on any failure the book (hence the record) is unchanged. -/
theorem C9_change_phone_errors (book : Book) (name old : Str) (nv : PyVal) :
    ((∀ r ∈ book, pyLower r.name ≠ pyLower name) →
      change_phone book name old nv = (book, some Err.contactNotFound)) ∧
    (∀ r, findRec book name = some r →
      (change_phone book name old nv).2 = (editPhones r.phones old nv).2) ∧
    (∀ ps : List PyVal, (∀ p ∈ ps, pyStr p ≠ old) →
      editPhones ps old nv = (ps, some Err.phoneNotFound)) ∧
    (∀ e, (change_phone book name old nv).2 = some e →
      (change_phone book name old nv).1 = book) := by
  exact ⟨change_phone_not_found book name old nv,
         fun r h => change_phone_delegates book name old nv r h,
         fun ps h => editPhones_not_found ps old nv h,
         fun e h => change_phone_fail_keeps book name old nv e h⟩

theorem C9_change_phone_errors_witness :
    change_phone [⟨"Alice".data, Option.none, [PyVal.vstr "1234567890".data]⟩]
        ("Bob".data) ("1234567890".data) (PyVal.vstr "1111111111".data) =
      ([⟨"Alice".data, Option.none, [PyVal.vstr "1234567890".data]⟩],
        some Err.contactNotFound) :=
  (C9_change_phone_errors
      [⟨"Alice".data, Option.none, [PyVal.vstr "1234567890".data]⟩]
      ("Bob".data) ("1234567890".data) (PyVal.vstr "1111111111".data)).1
    (by decide)

theorem namesCI_extendFirst (b : Book) (k : Str) (ps : List PyVal) :
    namesCI (extendFirst b k ps) = namesCI b := by
  induction b with
  | nil => rfl
  | cons x rest ih =>
    cases hm : (pyLower x.name == k) with
    | true => simp [extendFirst, hm, namesCI]
    | false =>
      simp only [extendFirst, hm, Bool.false_eq_true, if_false]
      simp only [namesCI, List.map_cons] at ih ⊢
      rw [ih]

theorem namesCI_change_phone (b : Book) (n o : Str) (v : PyVal) :
    namesCI (change_phone b n o v).1 = namesCI b := by
  induction b with
  | nil => rfl
  | cons r rest ih =>
    cases hm : (pyLower r.name == pyLower (pyLower n)) with
    | true => simp [change_phone, hm, namesCI]
    | false =>
      simp only [change_phone, hm, Bool.false_eq_true, if_false]
      simp only [namesCI, List.map_cons] at ih ⊢
      rw [ih]

theorem eraseKey_sublist (b : Book) (k : Str) : List.Sublist (eraseKey b k) b := by
  induction b with
  | nil => exact List.Sublist.refl []
  | cons y rest ih =>
    cases hm : (y.name == k) with
    | true =>
      simp only [eraseKey, hm, if_true]
      exact List.sublist_cons_self y rest
    | false =>
      simp only [eraseKey, hm, Bool.false_eq_true, if_false]
      exact ih.cons₂ y

theorem distinctL_sublist {l1 l2 : List Str} (hs : List.Sublist l1 l2)
    (h : distinctL l2 = true) : distinctL l1 = true := by
  induction hs with
  | slnil => rfl
  | cons a hs ih =>
    simp only [distinctL, Bool.and_eq_true, List.all_eq_true] at h
    exact ih h.2
  | cons₂ a hs ih =>
    rename_i m1 m2
    simp only [distinctL, Bool.and_eq_true, List.all_eq_true] at h ⊢
    exact ⟨fun t ht => h.1 t (hs.subset ht), ih h.2⟩

theorem ciUniq_deleteRec (b : Book) (n : Str) (h : ciUniq b = true) :
    ciUniq (deleteRec b n) = true := by
  unfold deleteRec
  cases hf : b.find? (fun r => pyLower r.name == pyLower n) with
  | none => exact h
  | some r =>
    exact distinctL_sublist (List.Sublist.map _ (eraseKey_sublist b r.name)) h

theorem distinctL_append_single {l : List Str} {s : Str} (h : distinctL l = true)
    (hs : ∀ t ∈ l, t ≠ s) : distinctL (l ++ [s]) = true := by
  induction l with
  | nil => rfl
  | cons a rest ih =>
    simp only [distinctL, Bool.and_eq_true, List.all_eq_true, List.cons_append] at h ⊢
    obtain ⟨hall, hrest⟩ := h
    refine ⟨?_, ih hrest (fun t ht => hs t (List.mem_cons_of_mem a ht))⟩
    intro t ht
    rcases List.mem_append.mp ht with h1 | h2
    · exact hall t h1
    · have ht2 : t = s := by simpa using h2
      subst ht2
      have hne : a ≠ t := hs a (List.mem_cons_self a rest)
      simpa using fun he => hne he.symm

theorem ciUniq_add_record (b : Book) (r : RecordE) (h : ciUniq b = true) :
    ciUniq (add_record b r) = true := by
  unfold add_record
  cases ha : b.any (fun x => pyLower x.name == pyLower r.name) with
  | true =>
    simp only [if_true]
    unfold ciUniq
    rw [namesCI_extendFirst]
    exact h
  | false =>
    simp only [Bool.false_eq_true, if_false]
    have hall := List.any_eq_false.mp ha
    have hns : ∀ t ∈ namesCI b, t ≠ pyLower r.name := by
      intro t ht
      rcases List.mem_map.mp ht with ⟨x, hx, rfl⟩
      simpa using hall x hx
    show distinctL (namesCI (b ++ [r])) = true
    rw [namesCI, List.map_append]
    exact distinctL_append_single h hns

theorem mkRecord_name (n : Str) (bd : Option Str) (ph : Option (List PyVal))
    (r : RecordE) (h : mkRecord n bd ph = Except.ok r) : r.name = n := by
  unfold mkRecord at h
  split at h
  · cases h
  · split at h
    · cases h
    · have := Except.ok.inj h
      subst this
      rfl

theorem dictInsert_fresh (b : Book) (r : RecordE) (h : ∀ x ∈ b, x.name ≠ r.name) :
    dictInsert b r = b ++ [r] := by
  induction b with
  | nil => rfl
  | cons x rest ih =>
    have hm : (x.name == r.name) = false := by
      simpa using h x (List.mem_cons_self x rest)
    simp only [dictInsert, hm, Bool.false_eq_true, if_false, List.cons_append]
    rw [ih (fun y hy => h y (List.mem_cons_of_mem x hy))]

theorem loadGo_ciUniq (file : List PRec) (acc : Book) (b' : Book)
    (hacc : ciUniq acc = true)
    (hfresh : ∀ pr ∈ file, ∀ x ∈ acc, pyLower x.name ≠ pyLower pr.name)
    (hfile : distinctL (file.map (fun pr => pyLower pr.name)) = true)
    (h : loadGo acc file = Except.ok b') : ciUniq b' = true := by
  induction file generalizing acc with
  | nil =>
    have := Except.ok.inj h
    subst this
    exact hacc
  | cons pr rest ih =>
    simp only [loadGo] at h
    split at h
    · cases h
    · rename_i r hr
      have hname : r.name = pr.name := mkRecord_name _ _ _ _ hr
      have hexact : ∀ x ∈ acc, x.name ≠ r.name := by
        intro x hx he
        exact hfresh pr (List.mem_cons_self pr rest) x hx (by rw [he, hname])
      rw [dictInsert_fresh acc r hexact] at h
      have hacc2 : ciUniq (acc ++ [r]) = true := by
        show distinctL (namesCI (acc ++ [r])) = true
        rw [namesCI, List.map_append]
        refine distinctL_append_single hacc ?_
        intro t ht
        rcases List.mem_map.mp ht with ⟨x, hx, hxe⟩
        have hxe2 : pyLower x.name = t := hxe
        intro he
        have he2 : t = pyLower r.name := he
        exact hfresh pr (List.mem_cons_self pr rest) x hx (by rw [hxe2, he2, hname])
      simp only [List.map_cons, distinctL, Bool.and_eq_true, List.all_eq_true] at hfile
      obtain ⟨hfhead, hftail⟩ := hfile
      have hfresh2 : ∀ pr' ∈ rest, ∀ x ∈ acc ++ [r], pyLower x.name ≠ pyLower pr'.name := by
        intro pr' hpr' x hx
        rcases List.mem_append.mp hx with h1 | h2
        · exact hfresh pr' (List.mem_cons_of_mem pr hpr') x h1
        · have hxr : x = r := by simpa using h2
          subst hxr
          rw [hname]
          intro he
          have hne := hfhead (pyLower pr'.name)
            (List.mem_map.mpr ⟨pr', hpr', rfl⟩)
          simp only [Bool.not_eq_eq_eq_not, Bool.not_true, beq_eq_false_iff_ne,
            ne_eq] at hne
          exact hne he.symm
      exact ih (acc ++ [r]) hacc2 hfresh2 hftail h

theorem ciUniq_applyOp (b : Book) (op : BookOp) (hb : ciUniq b = true)
    (hop : opSafe op = true) : ciUniq (applyOp b op) = true := by
  cases op with
  | add r => exact ciUniq_add_record b r hb
  | del n => exact ciUniq_deleteRec b n hb
  | change n o v =>
    show distinctL (namesCI (change_phone b n o v).1) = true
    rw [namesCI_change_phone]
    exact hb
  | save => exact hb
  | load file =>
    show ciUniq (match load_from_file file with
      | Except.ok b2 => b2
      | Except.error _ => b) = true
    cases hl : load_from_file file with
    | error e => exact hb
    | ok b2 =>
      exact loadGo_ciUniq file [] b2 rfl
        (fun pr _ x hx => absurd hx (List.not_mem_nil x)) hop hl

/-- C4 counterexample: the claim also ranges over `loadFromFile`, but
loading a file whose records are named `Alice` and `ALICE` produces a book
holding two records whose names are equal case-insensitively — the
invariant does not survive an arbitrary load. -/
theorem C4_load_breaks_ci_invariant :
    ciUniq (applyOps [] [BookOp.load
      [⟨"Alice".data, Option.none, Option.none⟩,
       ⟨"ALICE".data, Option.none, Option.none⟩]]) = false := by decide

/-- C4 amended: starting from a book satisfying the case-insensitive
uniqueness invariant, any sequence of `add_record`, `delete`,
`change_phone` and `save_to_file` operations preserves it, and
`load_from_file` does too provided the loaded file's record names are
pairwise case-insensitively distinct (as any file produced by
`save_to_file` from an invariant-satisfying book is). -/
theorem C4_ops_preserve_ci_invariant (book : Book) (ops : List BookOp)
    (hb : ciUniq book = true) (hops : ∀ op ∈ ops, opSafe op = true) :
    ciUniq (applyOps book ops) = true := by
  induction ops generalizing book with
  | nil => exact hb
  | cons op rest ih =>
    exact ih (applyOp book op)
      (ciUniq_applyOp book op hb (hops op (List.mem_cons_self op rest)))
      (fun o ho => hops o (List.mem_cons_of_mem op ho))

theorem C4_ops_preserve_ci_invariant_witness :
    ciUniq (applyOps []
      [BookOp.add ⟨"Alice".data, Option.none, []⟩,
       BookOp.load [⟨"Bob".data, Option.none, Option.none⟩],
       BookOp.del ("alice".data)]) = true :=
  C4_ops_preserve_ci_invariant [] _ (by decide) (by decide)

